import Mathlib

/-!
Shallow embedding of the Mandelbrot renderer (Rust crate `mandelbrot`,
file `src/lib.rs`).

Floating-point `f64` values are modelled by exact rationals `ℚ`; machine
integers `u32`/`usize` by `ℕ` (with `as u8` truncation made explicit as
`% 256`).  The Rust `while` loops are translated fuel-style: the fuel is
`iterations - i`, so the loop guard `i < iterations` corresponds exactly
to `fuel > 0`, and each loop pass consumes one unit of fuel.

The source file contains two textually identical image modules,
`mandelbrot_img` and `image_mandelbrot`; both are embedded.  The ASCII
module `ascii_mandelbrot` differs in its loop: the escape test is made
at the TOP of the loop (before the update), whereas the image loop tests
AFTER the update and before the counter increment.
-/

namespace image_mandelbrot

/-- The body of `image_mandelbrot::mandelbrot`'s `while i < iterations`
loop, with `fuel = iterations - i`.  Each pass computes
`x_temp = x*x - y*y + cx`, `y = 2*x*y + cy`, `x = x_temp`, breaks
returning `i` when `x*x + y*y > 4.0`, and otherwise increments `i`. -/
def mandelbrotLoop (cx cy : ℚ) : ℕ → ℚ → ℚ → ℕ → ℕ
  | 0, _x, _y, i => i
  | fuel + 1, x, y, i =>
    let x_temp := x * x - y * y + cx
    let y2 := 2 * x * y + cy
    if x_temp * x_temp + y2 * y2 > 4 then i
    else mandelbrotLoop cx cy fuel x_temp y2 (i + 1)

/-- `image_mandelbrot::mandelbrot` (src/src/lib.rs lines 125-140):
escape-time count starting from `x = 0.0`, `y = 0.0`, `i = 0`. -/
def mandelbrot (c : ℚ × ℚ) (iterations : ℕ) : ℕ :=
  mandelbrotLoop c.1 c.2 iterations 0 0 0

/-- `image_mandelbrot::to_complex_num` (src/src/lib.rs lines 121-123):
`((x as f64 / width as f64 * 3.5 - 2.5), (y as f64 / height as f64 * 2.0 - 1.0))`. -/
def to_complex_num (x y width height : ℕ) : ℚ × ℚ :=
  ((x : ℚ) / (width : ℚ) * 3.5 - 2.5, (y : ℚ) / (height : ℚ) * 2.0 - 1.0)

/-- `image_mandelbrot::compose` (src/src/lib.rs lines 110-118), modelled
as the row-major list of `((x, y), pixel)` entries that
`enumerate_pixels_mut` writes (x varies fastest).  The Rust pixel
`Rgb([i as u8, i as u8, i as u8])` is the triple of `i % 256`. -/
def compose (width height iterations : ℕ) : List ((ℕ × ℕ) × (ℕ × ℕ × ℕ)) :=
  (List.range height).flatMap fun y =>
    (List.range width).map fun x =>
      let c := to_complex_num x y width height
      let i := mandelbrot c iterations
      ((x, y), (i % 256, i % 256, i % 256))

end image_mandelbrot

namespace mandelbrot_img

/-- Loop of `mandelbrot_img::mandelbrot` (src/src/lib.rs lines 89-104),
textually identical to the `image_mandelbrot` copy. -/
def mandelbrotLoop (cx cy : ℚ) : ℕ → ℚ → ℚ → ℕ → ℕ
  | 0, _x, _y, i => i
  | fuel + 1, x, y, i =>
    let x_temp := x * x - y * y + cx
    let y2 := 2 * x * y + cy
    if x_temp * x_temp + y2 * y2 > 4 then i
    else mandelbrotLoop cx cy fuel x_temp y2 (i + 1)

/-- `mandelbrot_img::mandelbrot` (src/src/lib.rs lines 89-104). -/
def mandelbrot (c : ℚ × ℚ) (iterations : ℕ) : ℕ :=
  mandelbrotLoop c.1 c.2 iterations 0 0 0

/-- `mandelbrot_img::to_complex_num` (src/src/lib.rs lines 75-77). -/
def to_complex_num (x y width height : ℕ) : ℚ × ℚ :=
  ((x : ℚ) / (width : ℚ) * 3.5 - 2.5, (y : ℚ) / (height : ℚ) * 2.0 - 1.0)

/-- `mandelbrot_img::compose` (src/src/lib.rs lines 56-64), same model
as `image_mandelbrot.compose`. -/
def compose (width height iterations : ℕ) : List ((ℕ × ℕ) × (ℕ × ℕ × ℕ)) :=
  (List.range height).flatMap fun y =>
    (List.range width).map fun x =>
      let c := to_complex_num x y width height
      let i := mandelbrot c iterations
      ((x, y), (i % 256, i % 256, i % 256))

end mandelbrot_img

namespace ascii_mandelbrot

def WIDTH : ℕ := 80
def HEIGHT : ℕ := 40
def ITERATIONS : ℕ := 100
def ESCAPE_RADIUS : ℚ := 2.0

/-- `ascii_mandelbrot::to_ascii_char` (src/src/lib.rs lines 175-186):
the Rust `match` on inclusive ranges `0..=5, 6..=10, 11..=20, 21..=30,
31..=40, 41..=50, 51..=60, _`, rendered as the equivalent chain of
upper-bound tests. -/
def to_ascii_char (value : ℕ) : Char :=
  if value ≤ 5 then '.'
  else if value ≤ 10 then '*'
  else if value ≤ 20 then ':'
  else if value ≤ 30 then 'o'
  else if value ≤ 40 then '&'
  else if value ≤ 50 then '8'
  else if value ≤ 60 then '#'
  else '@'

/-- `ascii_mandelbrot::to_complex_num` (src/src/lib.rs lines 189-193). -/
def to_complex_num (x y width height : ℕ) : ℚ × ℚ :=
  ((x : ℚ) / (width : ℚ) * 3.5 - 2.5, (y : ℚ) / (height : ℚ) * 2.0 - 1.0)

/-- The body of `ascii_mandelbrot::mandelbrot`'s loop
`while x*x + y*y <= ESCAPE_RADIUS * ESCAPE_RADIUS && iterations < ITERATIONS`,
with `fuel = ITERATIONS - iterations`: the escape test happens BEFORE
the update, and the counter is incremented on every executed pass. -/
def mandelbrotLoop (cx cy : ℚ) : ℕ → ℚ → ℚ → ℕ → ℕ
  | 0, _x, _y, iters => iters
  | fuel + 1, x, y, iters =>
    if x * x + y * y ≤ ESCAPE_RADIUS * ESCAPE_RADIUS then
      mandelbrotLoop cx cy fuel (x * x - y * y + cx) (2 * x * y + cy) (iters + 1)
    else iters

/-- `ascii_mandelbrot::mandelbrot` (src/src/lib.rs lines 196-210). -/
def mandelbrot (c : ℚ × ℚ) : ℕ :=
  mandelbrotLoop c.1 c.2 ITERATIONS 0 0 0

/-- `ascii_mandelbrot::calculate_pixel_index` (src/src/lib.rs lines 213-215). -/
def calculate_pixel_index (x y width : ℕ) : ℕ :=
  y * width + x

/-- `ascii_mandelbrot::collect_ascii` (src/src/lib.rs lines 217-231),
modelled as the list of `(pixel_index, ascii_char)` pairs in insertion
order: `x` is the OUTER loop variable and `y` the inner one. -/
def collect_ascii : List (ℕ × Char) :=
  (List.range WIDTH).flatMap fun x =>
    (List.range HEIGHT).map fun y =>
      let c := to_complex_num x y WIDTH HEIGHT
      let value := mandelbrot c
      let ascii_char := to_ascii_char value
      (calculate_pixel_index x y WIDTH, ascii_char)

end ascii_mandelbrot

/-- The orbit `z ← z² + c` from `z₀ = (0, 0)`, written with the exact
real-arithmetic update of the source loops. -/
def orbit (cx cy : ℚ) : ℕ → ℚ × ℚ
  | 0 => (0, 0)
  | n + 1 =>
    let p := orbit cx cy n
    (p.1 * p.1 - p.2 * p.2 + cx, 2 * p.1 * p.2 + cy)

/-- Squared magnitude `x*x + y*y` of an orbit point. -/
def normSq (p : ℚ × ℚ) : ℚ :=
  p.1 * p.1 + p.2 * p.2

/-- Ink density of the eight ASCII bucket characters, in the order of
the source's bucket table. -/
def inkRank (c : Char) : ℕ :=
  if c = '.' then 0
  else if c = '*' then 1
  else if c = ':' then 2
  else if c = 'o' then 3
  else if c = '&' then 4
  else if c = '8' then 5
  else if c = '#' then 6
  else 7

/-- `from_complex_num` (src/src/lib.rs lines 259-264, test module):
inverse mapping coordinate → nearest pixel,
`x = round((cx + 2.5) / 3.5 * (width as f64 * 1.0))` and
`y = round((cy + 1.0) / 2.0 * (height as f64 * 1.0))`, cast to `u32`. -/
def from_complex_num (c : ℚ × ℚ) (width height : ℕ) : ℕ × ℕ :=
  ((round ((c.1 + 2.5) / 3.5 * ((width : ℚ) * 1.0))).toNat,
   (round ((c.2 + 1.0) / 2.0 * ((height : ℚ) * 1.0))).toNat)

/-! ## Loop lemmas -/

lemma img_loop_succ (cx cy x y : ℚ) (fuel i : ℕ) :
    image_mandelbrot.mandelbrotLoop cx cy (fuel + 1) x y i =
      if (x * x - y * y + cx) * (x * x - y * y + cx) + (2 * x * y + cy) * (2 * x * y + cy) > 4
      then i
      else image_mandelbrot.mandelbrotLoop cx cy fuel (x * x - y * y + cx) (2 * x * y + cy)
        (i + 1) := rfl

lemma img_loop_zero (cx cy x y : ℚ) (i : ℕ) :
    image_mandelbrot.mandelbrotLoop cx cy 0 x y i = i := rfl

lemma img_loop_le (cx cy : ℚ) :
    ∀ (fuel : ℕ) (x y : ℚ) (i : ℕ), image_mandelbrot.mandelbrotLoop cx cy fuel x y i ≤ i + fuel := by
  intro fuel
  induction fuel with
  | zero => intro x y i; simp [image_mandelbrot.mandelbrotLoop]
  | succ f ih =>
    intro x y i
    rw [img_loop_succ]
    split
    · omega
    · have := ih (x * x - y * y + cx) (2 * x * y + cy) (i + 1)
      omega

lemma img_mandelbrot_le (c : ℚ × ℚ) (cap : ℕ) : image_mandelbrot.mandelbrot c cap ≤ cap := by
  have := img_loop_le c.1 c.2 cap 0 0 0
  simpa [image_mandelbrot.mandelbrot] using this

/-- The `mandelbrot_img` module is a verbatim copy of `image_mandelbrot`;
their loops agree. -/
lemma dup_loop_eq (cx cy : ℚ) :
    ∀ (fuel : ℕ) (x y : ℚ) (i : ℕ),
      mandelbrot_img.mandelbrotLoop cx cy fuel x y i =
        image_mandelbrot.mandelbrotLoop cx cy fuel x y i := by
  intro fuel
  induction fuel with
  | zero => intro x y i; rfl
  | succ f ih =>
    intro x y i
    show (if _ > 4 then i else mandelbrot_img.mandelbrotLoop cx cy f _ _ (i + 1)) = _
    rw [img_loop_succ]
    split
    · rfl
    · exact ih _ _ _

lemma dup_mandelbrot_eq (c : ℚ × ℚ) (cap : ℕ) :
    mandelbrot_img.mandelbrot c cap = image_mandelbrot.mandelbrot c cap := by
  simp [mandelbrot_img.mandelbrot, image_mandelbrot.mandelbrot, dup_loop_eq]

lemma ascii_loop_succ (cx cy x y : ℚ) (fuel iters : ℕ) :
    ascii_mandelbrot.mandelbrotLoop cx cy (fuel + 1) x y iters =
      if x * x + y * y ≤ 4 then
        ascii_mandelbrot.mandelbrotLoop cx cy fuel (x * x - y * y + cx) (2 * x * y + cy)
          (iters + 1)
      else iters := by
  have h4 : ascii_mandelbrot.ESCAPE_RADIUS * ascii_mandelbrot.ESCAPE_RADIUS = (4 : ℚ) := by
    norm_num [ascii_mandelbrot.ESCAPE_RADIUS]
  show (if x * x + y * y ≤ ascii_mandelbrot.ESCAPE_RADIUS * ascii_mandelbrot.ESCAPE_RADIUS
    then _ else _) = _
  rw [h4]

lemma ascii_loop_zero_fuel (cx cy x y : ℚ) (iters : ℕ) :
    ascii_mandelbrot.mandelbrotLoop cx cy 0 x y iters = iters := rfl

lemma ascii_loop_le (cx cy : ℚ) :
    ∀ (fuel : ℕ) (x y : ℚ) (iters : ℕ),
      ascii_mandelbrot.mandelbrotLoop cx cy fuel x y iters ≤ iters + fuel := by
  intro fuel
  induction fuel with
  | zero => intro x y iters; rw [ascii_loop_zero_fuel]; omega
  | succ f ih =>
    intro x y iters
    rw [ascii_loop_succ]
    split
    · have := ih (x * x - y * y + cx) (2 * x * y + cy) (iters + 1)
      omega
    · omega

lemma ascii_loop_ge (cx cy : ℚ) :
    ∀ (fuel : ℕ) (x y : ℚ) (iters : ℕ),
      iters ≤ ascii_mandelbrot.mandelbrotLoop cx cy fuel x y iters := by
  intro fuel
  induction fuel with
  | zero => intro x y iters; rw [ascii_loop_zero_fuel]
  | succ f ih =>
    intro x y iters
    rw [ascii_loop_succ]
    split
    · have := ih (x * x - y * y + cx) (2 * x * y + cy) (iters + 1)
      omega
    · omega

lemma ascii_loop_at_origin :
    ∀ (fuel iters : ℕ), ascii_mandelbrot.mandelbrotLoop 0 0 fuel 0 0 iters = iters + fuel := by
  intro fuel
  induction fuel with
  | zero => intro iters; rw [ascii_loop_zero_fuel]; omega
  | succ f ih =>
    intro iters
    rw [ascii_loop_succ, if_pos (by norm_num)]
    rw [show (0 : ℚ) * 0 - 0 * 0 + 0 = 0 by ring, show 2 * (0 : ℚ) * 0 + 0 = 0 by ring, ih]
    omega

/-! ## Orbit lemmas -/

lemma orbit_succ (cx cy : ℚ) (n : ℕ) :
    orbit cx cy (n + 1) =
      ((orbit cx cy n).1 * (orbit cx cy n).1 - (orbit cx cy n).2 * (orbit cx cy n).2 + cx,
        2 * (orbit cx cy n).1 * (orbit cx cy n).2 + cy) := rfl

lemma orbit_one (cx cy : ℚ) : orbit cx cy 1 = (cx, cy) := by
  rw [show (1 : ℕ) = 0 + 1 from rfl, orbit_succ]
  show ((0 : ℚ) * 0 - 0 * 0 + cx, 2 * (0 : ℚ) * 0 + cy) = (cx, cy)
  simp only [Prod.mk.injEq]
  constructor <;> ring

lemma orbit_at_origin : ∀ n : ℕ, orbit 0 0 n = (0, 0) := by
  intro n
  induction n with
  | zero => rfl
  | succ k ih => rw [orbit_succ, ih]; norm_num

/-- If the orbit stays within squared magnitude 4 through the whole fuel
window, the image loop exhausts its fuel and returns `i + fuel`. -/
lemma img_loop_no_escape (cx cy : ℚ) :
    ∀ (fuel i : ℕ), (∀ k, i < k → k ≤ i + fuel → normSq (orbit cx cy k) ≤ 4) →
      image_mandelbrot.mandelbrotLoop cx cy fuel (orbit cx cy i).1 (orbit cx cy i).2 i =
        i + fuel := by
  intro fuel
  induction fuel with
  | zero => intro i _; rw [img_loop_zero]; omega
  | succ f ih =>
    intro i h
    rw [img_loop_succ]
    have h1 : (orbit cx cy i).1 * (orbit cx cy i).1 - (orbit cx cy i).2 * (orbit cx cy i).2 + cx =
        (orbit cx cy (i + 1)).1 := by rw [orbit_succ]
    have h2 : 2 * (orbit cx cy i).1 * (orbit cx cy i).2 + cy = (orbit cx cy (i + 1)).2 := by
      rw [orbit_succ]
    rw [h1, h2]
    have hle : normSq (orbit cx cy (i + 1)) ≤ 4 := h (i + 1) (by omega) (by omega)
    rw [if_neg (not_lt.mpr (by simpa [normSq] using hle))]
    have := ih (i + 1) (fun k hk1 hk2 => h k (by omega) (by omega))
    omega

/-- If the orbit first exceeds squared magnitude 4 at step `K` within the
fuel window, the image loop returns `K - 1` (the counter has been
incremented only for the earlier, non-escaping passes). -/
lemma img_loop_escape (cx cy : ℚ) :
    ∀ (fuel i K : ℕ), i < K → K ≤ i + fuel → 4 < normSq (orbit cx cy K) →
      (∀ j, i < j → j < K → normSq (orbit cx cy j) ≤ 4) →
      image_mandelbrot.mandelbrotLoop cx cy fuel (orbit cx cy i).1 (orbit cx cy i).2 i =
        K - 1 := by
  intro fuel
  induction fuel with
  | zero => intro i K h1 h2 _ _; omega
  | succ f ih =>
    intro i K hiK hKle hesc hmin
    rw [img_loop_succ]
    have h1 : (orbit cx cy i).1 * (orbit cx cy i).1 - (orbit cx cy i).2 * (orbit cx cy i).2 + cx =
        (orbit cx cy (i + 1)).1 := by rw [orbit_succ]
    have h2 : 2 * (orbit cx cy i).1 * (orbit cx cy i).2 + cy = (orbit cx cy (i + 1)).2 := by
      rw [orbit_succ]
    rw [h1, h2]
    by_cases hK : K = i + 1
    · subst hK
      rw [if_pos (by simpa [normSq] using hesc)]
      omega
    · have hj : normSq (orbit cx cy (i + 1)) ≤ 4 := hmin (i + 1) (by omega) (by omega)
      rw [if_neg (not_lt.mpr (by simpa [normSq] using hj))]
      exact ih (i + 1) K (by omega) (by omega) hesc (fun j ha hb => hmin j (by omega) hb)

/-! ## Relating the ASCII loop to the image loop -/

/-- Truncated at the fuel-exhaustion bound, one more unit of image-loop
fuel changes nothing. -/
lemma img_loop_min_fuel (cx cy : ℚ) :
    ∀ (f : ℕ) (x y : ℚ) (i : ℕ),
      min (image_mandelbrot.mandelbrotLoop cx cy (f + 1) x y i + 1) (i + f + 1) =
        min (image_mandelbrot.mandelbrotLoop cx cy f x y i + 1) (i + f + 1) := by
  intro f
  induction f with
  | zero =>
    intro x y i
    rw [img_loop_succ cx cy x y 0 i]
    simp only [img_loop_zero]
    split <;> omega
  | succ f ih =>
    intro x y i
    rw [img_loop_succ cx cy x y (f + 1) i, img_loop_succ cx cy x y f i]
    by_cases hc : (x * x - y * y + cx) * (x * x - y * y + cx) +
        (2 * x * y + cy) * (2 * x * y + cy) > 4
    · rw [if_pos hc, if_pos hc]
    · rw [if_neg hc, if_neg hc]
      have := ih (x * x - y * y + cx) (2 * x * y + cy) (i + 1)
      have harr : i + 1 + f + 1 = i + (f + 1) + 1 := by omega
      rw [harr] at this
      exact this

/-- The ASCII loop (escape test before the update, counter incremented on
the escaping pass) exceeds the image loop (escape test after the update,
counter not incremented on the escaping pass) by exactly one, truncated
at the fuel bound. -/
lemma ascii_img_loop_rel (cx cy : ℚ) :
    ∀ (f : ℕ) (x y : ℚ) (i : ℕ), x * x + y * y ≤ 4 →
      ascii_mandelbrot.mandelbrotLoop cx cy (f + 1) x y i =
        min (image_mandelbrot.mandelbrotLoop cx cy f x y i + 1) (i + f + 1) := by
  intro f
  induction f with
  | zero =>
    intro x y i h
    rw [ascii_loop_succ, if_pos h, ascii_loop_zero_fuel, img_loop_zero]
    omega
  | succ f ih =>
    intro x y i h
    rw [ascii_loop_succ cx cy x y (f + 1) i, if_pos h, img_loop_succ cx cy x y f i]
    by_cases hesc : (x * x - y * y + cx) * (x * x - y * y + cx) +
        (2 * x * y + cy) * (2 * x * y + cy) > 4
    · rw [if_pos hesc,
        ascii_loop_succ cx cy (x * x - y * y + cx) (2 * x * y + cy) f (i + 1),
        if_neg (not_le.mpr hesc)]
      omega
    · rw [if_neg hesc]
      have := ih (x * x - y * y + cx) (2 * x * y + cy) (i + 1) (not_lt.mp hesc)
      rw [this]
      omega

/-! ## Concrete evaluations -/

lemma dup_to_complex_num_eq :
    mandelbrot_img.to_complex_num = image_mandelbrot.to_complex_num := rfl

lemma img_pixel_1_1 :
    image_mandelbrot.to_complex_num 1 1 800 800 = (-(3993 / 1600 : ℚ), -(399 / 400 : ℚ)) := by
  norm_num [image_mandelbrot.to_complex_num, Prod.ext_iff]

lemma img_mandelbrot_1_1 :
    image_mandelbrot.mandelbrot (image_mandelbrot.to_complex_num 1 1 800 800) 255 = 0 := by
  rw [img_pixel_1_1]
  simp only [image_mandelbrot.mandelbrot]
  rw [show (255 : ℕ) = 254 + 1 from rfl, img_loop_succ, if_pos (by norm_num)]

lemma ascii_mandelbrot_3_0 : ascii_mandelbrot.mandelbrot (3, 0) = 1 := by
  simp only [ascii_mandelbrot.mandelbrot, ascii_mandelbrot.ITERATIONS]
  rw [show (100 : ℕ) = 99 + 1 from rfl, ascii_loop_succ, if_pos (by norm_num)]
  rw [show (99 : ℕ) = 98 + 1 from rfl, ascii_loop_succ, if_neg (by norm_num)]

lemma img_mandelbrot_3_0 : image_mandelbrot.mandelbrot (3, 0) 100 = 0 := by
  simp only [image_mandelbrot.mandelbrot]
  rw [show (100 : ℕ) = 99 + 1 from rfl, img_loop_succ, if_pos (by norm_num)]

lemma img_mandelbrot_0_0_1_1 :
    image_mandelbrot.mandelbrot (image_mandelbrot.to_complex_num 0 0 1 1) 1 = 0 := by
  have hc : image_mandelbrot.to_complex_num 0 0 1 1 = (-(5 / 2 : ℚ), -1) := by
    norm_num [image_mandelbrot.to_complex_num, Prod.ext_iff]
  rw [hc]
  simp only [image_mandelbrot.mandelbrot]
  rw [show (1 : ℕ) = 0 + 1 from rfl, img_loop_succ, if_pos (by norm_num)]

lemma compose_1_1_1 : image_mandelbrot.compose 1 1 1 = [((0, 0), (0, 0, 0))] := by
  simp only [image_mandelbrot.compose, show List.range 1 = [0] from rfl]
  simp [img_mandelbrot_0_0_1_1]

lemma ink_to_ascii (v : ℕ) :
    inkRank (ascii_mandelbrot.to_ascii_char v) =
      if v ≤ 5 then 0 else if v ≤ 10 then 1 else if v ≤ 20 then 2 else if v ≤ 30 then 3
      else if v ≤ 40 then 4 else if v ≤ 50 then 5 else if v ≤ 60 then 6 else 7 := by
  unfold ascii_mandelbrot.to_ascii_char
  split_ifs <;> simp [inkRank]

/-! ## Coverage lemmas -/

lemma compose_keys (width height cap : ℕ) :
    (image_mandelbrot.compose width height cap).map Prod.fst =
      (List.range height).flatMap fun y => (List.range width).map fun x => (x, y) := by
  simp [image_mandelbrot.compose, List.map_flatMap, List.map_map, Function.comp_def]

lemma compose_length (width height cap : ℕ) :
    (image_mandelbrot.compose width height cap).length = width * height := by
  simp [image_mandelbrot.compose, List.length_flatMap, Function.comp_def, Nat.mul_comm]

lemma compose_keys_nodup (width height cap : ℕ) :
    ((image_mandelbrot.compose width height cap).map Prod.fst).Nodup := by
  rw [compose_keys, List.nodup_flatMap]
  constructor
  · intro y _
    exact (List.nodup_range width).map (fun a b hab => by simpa using hab)
  · refine (List.pairwise_lt_range height).imp ?_
    intro a b hab
    simp only [Function.onFun, List.disjoint_left]
    rintro p hp1 hp2
    simp only [List.mem_map, List.mem_range] at hp1 hp2
    obtain ⟨x1, -, rfl⟩ := hp1
    obtain ⟨x2, -, h2⟩ := hp2
    simp only [Prod.mk.injEq] at h2
    omega

lemma compose_keys_mem (width height cap : ℕ) (p : ℕ × ℕ) :
    p ∈ (image_mandelbrot.compose width height cap).map Prod.fst ↔
      p.1 < width ∧ p.2 < height := by
  rw [compose_keys]
  simp only [List.mem_flatMap, List.mem_map, List.mem_range]
  constructor
  · rintro ⟨y, hy, x, hx, rfl⟩
    exact ⟨hx, hy⟩
  · rintro ⟨h1, h2⟩
    exact ⟨p.2, h2, p.1, h1, rfl⟩

lemma collect_ascii_keys :
    ascii_mandelbrot.collect_ascii.map Prod.fst =
      (List.range 80).flatMap fun x => (List.range 40).map fun y => y * 80 + x := by
  simp [ascii_mandelbrot.collect_ascii, ascii_mandelbrot.WIDTH, ascii_mandelbrot.HEIGHT,
    ascii_mandelbrot.calculate_pixel_index, List.map_flatMap, List.map_map, Function.comp_def]

lemma collect_ascii_length : ascii_mandelbrot.collect_ascii.length = 3200 := by
  simp [ascii_mandelbrot.collect_ascii, ascii_mandelbrot.WIDTH, ascii_mandelbrot.HEIGHT,
    List.length_flatMap, Function.comp_def]

lemma collect_ascii_keys_nodup : (ascii_mandelbrot.collect_ascii.map Prod.fst).Nodup := by
  rw [collect_ascii_keys, List.nodup_flatMap]
  constructor
  · intro x _
    exact (List.nodup_range 40).map (fun a b hab => by omega)
  · refine (List.pairwise_lt_range 80).imp_of_mem ?_
    intro a b ha hb hab
    simp only [List.mem_range] at ha hb
    simp only [Function.onFun, List.disjoint_left]
    rintro p hp1 hp2
    simp only [List.mem_map, List.mem_range] at hp1 hp2
    obtain ⟨y1, hy1, rfl⟩ := hp1
    obtain ⟨y2, hy2, h2⟩ := hp2
    omega

lemma collect_ascii_keys_mem (k : ℕ) :
    k ∈ ascii_mandelbrot.collect_ascii.map Prod.fst ↔ k < 3200 := by
  rw [collect_ascii_keys]
  simp only [List.mem_flatMap, List.mem_map, List.mem_range]
  constructor
  · rintro ⟨x, hx, y, hy, rfl⟩
    omega
  · intro hk
    exact ⟨k % 80, by omega, k / 80, by omega, by omega⟩

/-! ## Claims -/

/-- C1: the image-path escape-time evaluator returns the current
iteration count as soon as the squared magnitude of the orbit exceeds
the squared escape radius 4.0, and returns the cap if that never
happens within cap iterations; concretely, on
`to_complex_num 1 1 800 800` (which is within 1/100 of
(-2.49125, -0.9975)) with cap 255 it returns 0, in both identical
image modules. -/
theorem spec_C1 (cx cy : ℚ) (cap : ℕ) :
    ((∀ k, 1 ≤ k → k ≤ cap → normSq (orbit cx cy k) ≤ 4) →
      image_mandelbrot.mandelbrot (cx, cy) cap = cap) ∧
    (∀ K, 1 ≤ K → K ≤ cap → 4 < normSq (orbit cx cy K) →
      (∀ j, 1 ≤ j → j < K → normSq (orbit cx cy j) ≤ 4) →
      image_mandelbrot.mandelbrot (cx, cy) cap = K - 1) ∧
    image_mandelbrot.mandelbrot (image_mandelbrot.to_complex_num 1 1 800 800) 255 = 0 ∧
    mandelbrot_img.mandelbrot (mandelbrot_img.to_complex_num 1 1 800 800) 255 = 0 ∧
    |(image_mandelbrot.to_complex_num 1 1 800 800).1 + 2.49125| < 1 / 100 ∧
    (image_mandelbrot.to_complex_num 1 1 800 800).2 = -0.9975 := by
  refine ⟨?_, ?_, img_mandelbrot_1_1, ?_, ?_, ?_⟩
  · intro h
    have := img_loop_no_escape cx cy cap 0 (fun k hk1 hk2 => h k (by omega) (by omega))
    simpa [image_mandelbrot.mandelbrot, orbit] using this
  · intro K h1 h2 h3 h4
    have := img_loop_escape cx cy cap 0 K (by omega) (by omega) h3
      (fun j hj1 hj2 => h4 j (by omega) hj2)
    simpa [image_mandelbrot.mandelbrot, orbit] using this
  · rw [dup_to_complex_num_eq, dup_mandelbrot_eq]
    exact img_mandelbrot_1_1
  · rw [img_pixel_1_1]
    rw [show (-(3993 / 1600 : ℚ), -(399 / 400 : ℚ)).1 + 2.49125 = -(7 / 1600 : ℚ) by norm_num]
    rw [abs_lt]
    constructor <;> norm_num
  · rw [img_pixel_1_1]
    norm_num

/-- C1 witness: the non-escape case at the origin with cap 1, and the
escape case at c = (3, 0) with cap 5 (first escape at step 1). -/
theorem spec_C1_witness :
    image_mandelbrot.mandelbrot (0, 0) 1 = 1 ∧ image_mandelbrot.mandelbrot (3, 0) 5 = 0 := by
  constructor
  · exact (spec_C1 0 0 1).1 (by
      intro k hk1 hk2
      have hk : k = 1 := by omega
      subst hk
      rw [orbit_one]
      norm_num [normSq])
  · exact (spec_C1 3 0 5).2.1 1 (by norm_num) (by norm_num)
      (by rw [orbit_one]; norm_num [normSq])
      (by intro j hj1 hj2; omega)

/-- C2 counterexample: at c = (3, 0) the ASCII evaluator returns 1 while
the image evaluator with cap 100 returns 0, so the two are not equal for
every input.  (The ASCII loop tests escape before the update and counts
the escaping pass; the image loop tests after the update and does not.) -/
theorem spec_C2_counterexample :
    ascii_mandelbrot.mandelbrot (3, 0) = 1 ∧ image_mandelbrot.mandelbrot (3, 0) 100 = 0 ∧
      ascii_mandelbrot.mandelbrot (3, 0) ≠ image_mandelbrot.mandelbrot (3, 0) 100 := by
  refine ⟨ascii_mandelbrot_3_0, img_mandelbrot_3_0, ?_⟩
  rw [ascii_mandelbrot_3_0, img_mandelbrot_3_0]
  omega

/-- C2 amended: for every complex input c the ASCII evaluator equals the
image evaluator at cap 100 plus one, truncated at 100:
`ascii_mandelbrot.mandelbrot c = min (image_mandelbrot.mandelbrot c 100 + 1) 100`. -/
theorem spec_C2 (c : ℚ × ℚ) :
    ascii_mandelbrot.mandelbrot c = min (image_mandelbrot.mandelbrot c 100 + 1) 100 := by
  obtain ⟨cx, cy⟩ := c
  simp only [ascii_mandelbrot.mandelbrot, image_mandelbrot.mandelbrot]
  rw [show ascii_mandelbrot.ITERATIONS = 99 + 1 from rfl]
  rw [ascii_img_loop_rel cx cy 99 0 0 0 (by norm_num)]
  rw [show (100 : ℕ) = 99 + 1 from rfl]
  have := img_loop_min_fuel cx cy 99 0 0 0
  omega

/-- C3: the origin never escapes, so the image evaluator returns the cap
there for every positive cap, and the ASCII evaluator returns its fixed
cap 100. -/
theorem spec_C3 (cap : ℕ) (hcap : 0 < cap) :
    image_mandelbrot.mandelbrot (0, 0) cap = cap ∧
      ascii_mandelbrot.mandelbrot (0, 0) = 100 := by
  constructor
  · have := img_loop_no_escape 0 0 cap 0
      (fun k _ _ => by rw [orbit_at_origin]; norm_num [normSq])
    simpa [image_mandelbrot.mandelbrot, orbit] using this
  · show ascii_mandelbrot.mandelbrotLoop 0 0 ascii_mandelbrot.ITERATIONS 0 0 0 = 100
    rw [show ascii_mandelbrot.ITERATIONS = 100 from rfl]
    have := ascii_loop_at_origin 100 0
    omega

/-- C3 witness: instantiation at cap = 1. -/
theorem spec_C3_witness :
    0 < 1 ∧ (image_mandelbrot.mandelbrot (0, 0) 1 = 1 ∧
      ascii_mandelbrot.mandelbrot (0, 0) = 100) :=
  ⟨Nat.one_pos, spec_C3 1 Nat.one_pos⟩

/-- C4: the evaluators are total functions of their inputs (the
embedding is fuel-structural, one fuel unit per loop pass) and their
results are bounded by the cap: the image result never exceeds the
given cap, and the ASCII result never exceeds its fixed cap 100. -/
theorem spec_C4 (c : ℚ × ℚ) (cap : ℕ) :
    image_mandelbrot.mandelbrot c cap ≤ cap ∧ ascii_mandelbrot.mandelbrot c ≤ 100 := by
  refine ⟨img_mandelbrot_le c cap, ?_⟩
  have := ascii_loop_le c.1 c.2 100 0 0 0
  simpa [ascii_mandelbrot.mandelbrot, ascii_mandelbrot.ITERATIONS] using this

/-- C5: the coordinate mapper computes
`real = x/width * 3.5 - 2.5` and `imag = y/height * 2.0 - 1.0` with the
integer inputs cast before dividing, in both the image and ASCII
modules, and `to_complex_num 100 200 800 800` is exactly
(-2.0625, -0.5). -/
theorem spec_C5 (x y width height : ℕ) (hx : x < width) (hy : y < height)
    (hw : 0 < width) (hh : 0 < height) :
    image_mandelbrot.to_complex_num x y width height =
      ((x : ℚ) / (width : ℚ) * 3.5 - 2.5, (y : ℚ) / (height : ℚ) * 2.0 - 1.0) ∧
    ascii_mandelbrot.to_complex_num x y width height =
      ((x : ℚ) / (width : ℚ) * 3.5 - 2.5, (y : ℚ) / (height : ℚ) * 2.0 - 1.0) ∧
    image_mandelbrot.to_complex_num 100 200 800 800 = (-2.0625, -0.5) := by
  refine ⟨rfl, rfl, ?_⟩
  norm_num [image_mandelbrot.to_complex_num, Prod.ext_iff]

/-- C5 witness: instantiation at x = 0, y = 0, width = height = 1. -/
theorem spec_C5_witness :
    image_mandelbrot.to_complex_num 100 200 800 800 = (-2.0625, -0.5) :=
  (spec_C5 0 0 1 1 (by norm_num) (by norm_num) (by norm_num) (by norm_num)).2.2

set_option maxHeartbeats 1600000 in
/-- C6: the ASCII bucket function realises the fixed table
0-5 → '.', 6-10 → '*', 11-20 → ':', 21-30 → 'o', 31-40 → '&',
41-50 → '8', 51-60 → '#', 61+ → '@', is monotone in ink density, and in
particular maps 3 → '.', 8 → '*', 55 → '#', 200 → '@'. -/
theorem spec_C6 :
    (∀ v : ℕ,
      (v ≤ 5 → ascii_mandelbrot.to_ascii_char v = '.') ∧
      (6 ≤ v → v ≤ 10 → ascii_mandelbrot.to_ascii_char v = '*') ∧
      (11 ≤ v → v ≤ 20 → ascii_mandelbrot.to_ascii_char v = ':') ∧
      (21 ≤ v → v ≤ 30 → ascii_mandelbrot.to_ascii_char v = 'o') ∧
      (31 ≤ v → v ≤ 40 → ascii_mandelbrot.to_ascii_char v = '&') ∧
      (41 ≤ v → v ≤ 50 → ascii_mandelbrot.to_ascii_char v = '8') ∧
      (51 ≤ v → v ≤ 60 → ascii_mandelbrot.to_ascii_char v = '#') ∧
      (61 ≤ v → ascii_mandelbrot.to_ascii_char v = '@')) ∧
    (∀ v w : ℕ, v ≤ w →
      inkRank (ascii_mandelbrot.to_ascii_char v) ≤
        inkRank (ascii_mandelbrot.to_ascii_char w)) ∧
    ascii_mandelbrot.to_ascii_char 3 = '.' ∧ ascii_mandelbrot.to_ascii_char 8 = '*' ∧
    ascii_mandelbrot.to_ascii_char 55 = '#' ∧ ascii_mandelbrot.to_ascii_char 200 = '@' := by
  refine ⟨?_, ?_, ?_, ?_, ?_, ?_⟩
  · intro v
    unfold ascii_mandelbrot.to_ascii_char
    exact ⟨fun h => by rw [if_pos h],
      fun h1 h2 => by rw [if_neg (by omega), if_pos h2],
      fun h1 h2 => by rw [if_neg (by omega), if_neg (by omega), if_pos h2],
      fun h1 h2 => by rw [if_neg (by omega), if_neg (by omega), if_neg (by omega), if_pos h2],
      fun h1 h2 => by
        rw [if_neg (by omega), if_neg (by omega), if_neg (by omega), if_neg (by omega),
          if_pos h2],
      fun h1 h2 => by
        rw [if_neg (by omega), if_neg (by omega), if_neg (by omega), if_neg (by omega),
          if_neg (by omega), if_pos h2],
      fun h1 h2 => by
        rw [if_neg (by omega), if_neg (by omega), if_neg (by omega), if_neg (by omega),
          if_neg (by omega), if_neg (by omega), if_pos h2],
      fun h => by
        rw [if_neg (by omega), if_neg (by omega), if_neg (by omega), if_neg (by omega),
          if_neg (by omega), if_neg (by omega), if_neg (by omega)]⟩
  · intro v w hvw
    rw [ink_to_ascii, ink_to_ascii]
    split_ifs <;> omega
  all_goals norm_num [ascii_mandelbrot.to_ascii_char]

/-- C6 witness: the bucket table at 7 and the monotonicity at 2 ≤ 9. -/
theorem spec_C6_witness :
    ascii_mandelbrot.to_ascii_char 7 = '*' ∧
      inkRank (ascii_mandelbrot.to_ascii_char 2) ≤
        inkRank (ascii_mandelbrot.to_ascii_char 9) :=
  ⟨(spec_C6.1 7).2.1 (by norm_num) (by norm_num), spec_C6.2.1 2 9 (by norm_num)⟩

/-- C7: full coverage — `compose width height cap` produces exactly
width*height entries whose key set is exactly
{(x, y) | x < width, y < height} with no key written twice, and
`collect_ascii` produces exactly 3200 entries whose key set is exactly
the linear indices {0, ..., 3199}, each bound exactly once. -/
theorem spec_C7 :
    (∀ width height cap : ℕ,
      (image_mandelbrot.compose width height cap).length = width * height ∧
      ((image_mandelbrot.compose width height cap).map Prod.fst).Nodup ∧
      ∀ p : ℕ × ℕ, p ∈ (image_mandelbrot.compose width height cap).map Prod.fst ↔
        p.1 < width ∧ p.2 < height) ∧
    ascii_mandelbrot.collect_ascii.length = 3200 ∧
    (ascii_mandelbrot.collect_ascii.map Prod.fst).Nodup ∧
    ∀ k : ℕ, k ∈ ascii_mandelbrot.collect_ascii.map Prod.fst ↔ k < 3200 :=
  ⟨fun w h cap => ⟨compose_length w h cap, compose_keys_nodup w h cap, compose_keys_mem w h cap⟩,
    collect_ascii_length, collect_ascii_keys_nodup, collect_ascii_keys_mem⟩

/-- C8: every entry of the pixel buffer is a grayscale triple whose
three channels all equal the escape count of the mapped coordinate
reduced mod 256 (the `as u8` truncation), and when cap ≤ 255 each
channel equals the escape count exactly; this holds for both identical
compose functions. -/
theorem spec_C8 :
    (∀ (width height cap : ℕ) (e : (ℕ × ℕ) × ℕ × ℕ × ℕ),
      e ∈ image_mandelbrot.compose width height cap →
        e.2 = (image_mandelbrot.mandelbrot
            (image_mandelbrot.to_complex_num e.1.1 e.1.2 width height) cap % 256,
          image_mandelbrot.mandelbrot
            (image_mandelbrot.to_complex_num e.1.1 e.1.2 width height) cap % 256,
          image_mandelbrot.mandelbrot
            (image_mandelbrot.to_complex_num e.1.1 e.1.2 width height) cap % 256) ∧
        (cap ≤ 255 → e.2.1 = image_mandelbrot.mandelbrot
            (image_mandelbrot.to_complex_num e.1.1 e.1.2 width height) cap)) ∧
    (∀ (width height cap : ℕ) (e : (ℕ × ℕ) × ℕ × ℕ × ℕ),
      e ∈ mandelbrot_img.compose width height cap →
        e.2 = (mandelbrot_img.mandelbrot
            (mandelbrot_img.to_complex_num e.1.1 e.1.2 width height) cap % 256,
          mandelbrot_img.mandelbrot
            (mandelbrot_img.to_complex_num e.1.1 e.1.2 width height) cap % 256,
          mandelbrot_img.mandelbrot
            (mandelbrot_img.to_complex_num e.1.1 e.1.2 width height) cap % 256) ∧
        (cap ≤ 255 → e.2.1 = mandelbrot_img.mandelbrot
            (mandelbrot_img.to_complex_num e.1.1 e.1.2 width height) cap)) := by
  constructor
  · intro width height cap e he
    simp only [image_mandelbrot.compose, List.mem_flatMap, List.mem_map, List.mem_range] at he
    obtain ⟨y, hy, x, hx, rfl⟩ := he
    refine ⟨rfl, fun hcap => ?_⟩
    show image_mandelbrot.mandelbrot (image_mandelbrot.to_complex_num x y width height) cap
        % 256 =
      image_mandelbrot.mandelbrot (image_mandelbrot.to_complex_num x y width height) cap
    have hle := img_mandelbrot_le (image_mandelbrot.to_complex_num x y width height) cap
    omega
  · intro width height cap e he
    simp only [mandelbrot_img.compose, List.mem_flatMap, List.mem_map, List.mem_range] at he
    obtain ⟨y, hy, x, hx, rfl⟩ := he
    refine ⟨rfl, fun hcap => ?_⟩
    show mandelbrot_img.mandelbrot (mandelbrot_img.to_complex_num x y width height) cap
        % 256 =
      mandelbrot_img.mandelbrot (mandelbrot_img.to_complex_num x y width height) cap
    have hle : mandelbrot_img.mandelbrot (mandelbrot_img.to_complex_num x y width height) cap
        ≤ cap := by
      rw [dup_mandelbrot_eq]
      exact img_mandelbrot_le _ _
    omega

/-- C8 witness: the single entry of `compose 1 1 1` (whose escape count
is 0, so the channels are exactly the count). -/
theorem spec_C8_witness :
    (((0, 0), (0, 0, 0)) : (ℕ × ℕ) × ℕ × ℕ × ℕ).2 =
      (image_mandelbrot.mandelbrot (image_mandelbrot.to_complex_num 0 0 1 1) 1 % 256,
        image_mandelbrot.mandelbrot (image_mandelbrot.to_complex_num 0 0 1 1) 1 % 256,
        image_mandelbrot.mandelbrot (image_mandelbrot.to_complex_num 0 0 1 1) 1 % 256) ∧
    (((0, 0), (0, 0, 0)) : (ℕ × ℕ) × ℕ × ℕ × ℕ).2.1 =
      image_mandelbrot.mandelbrot (image_mandelbrot.to_complex_num 0 0 1 1) 1 := by
  have hmem : (((0, 0), (0, 0, 0)) : (ℕ × ℕ) × ℕ × ℕ × ℕ) ∈ image_mandelbrot.compose 1 1 1 := by
    rw [compose_1_1_1]
    exact List.mem_singleton.mpr rfl
  have h := spec_C8.1 1 1 1 ((0, 0), (0, 0, 0)) hmem
  exact ⟨h.1, h.2 (by norm_num)⟩

/-- C9: mapping a pixel position to a coordinate and back through the
rounding inverse `from_complex_num` recovers the pixel exactly. -/
theorem spec_C9 (x y width height : ℕ) (hx : x < width) (hy : y < height)
    (hw : 0 < width) (hh : 0 < height) :
    from_complex_num (image_mandelbrot.to_complex_num x y width height) width height =
      (x, y) := by
  have hw0 : (width : ℚ) ≠ 0 := Nat.cast_ne_zero.mpr (by omega)
  have hh0 : (height : ℚ) ≠ 0 := Nat.cast_ne_zero.mpr (by omega)
  have h1 : ((x : ℚ) / (width : ℚ) * 3.5 - 2.5 + 2.5) / 3.5 * ((width : ℚ) * 1.0) = (x : ℚ) := by
    field_simp
    ring
  have h2 : ((y : ℚ) / (height : ℚ) * 2.0 - 1.0 + 1.0) / 2.0 * ((height : ℚ) * 1.0) =
      (y : ℚ) := by
    field_simp
    ring
  simp only [from_complex_num, image_mandelbrot.to_complex_num]
  rw [h1, h2, round_natCast, round_natCast, Int.toNat_natCast, Int.toNat_natCast]

/-- C9 witness: round-trip at (1, 1) in a 2 by 2 grid. -/
theorem spec_C9_witness :
    from_complex_num (image_mandelbrot.to_complex_num 1 1 2 2) 2 2 = (1, 1) :=
  spec_C9 1 1 2 2 (by norm_num) (by norm_num) (by norm_num) (by norm_num)

/-- C10: the ASCII evaluator always returns a value in [1, 100]: its
loop body runs at least once (the orbit starts at (0,0), which passes
the escape test) and the counter is incremented on the escaping pass,
so the count 0 is unreachable at the `to_ascii_char` call site. -/
theorem spec_C10 (c : ℚ × ℚ) :
    1 ≤ ascii_mandelbrot.mandelbrot c ∧ ascii_mandelbrot.mandelbrot c ≤ 100 := by
  constructor
  · show 1 ≤ ascii_mandelbrot.mandelbrotLoop c.1 c.2 ascii_mandelbrot.ITERATIONS 0 0 0
    rw [show ascii_mandelbrot.ITERATIONS = 99 + 1 from rfl, ascii_loop_succ,
      if_pos (by norm_num)]
    exact ascii_loop_ge c.1 c.2 99 _ _ 1
  · have := ascii_loop_le c.1 c.2 100 0 0 0
    simpa [ascii_mandelbrot.mandelbrot, ascii_mandelbrot.ITERATIONS] using this
